import Mathlib

/-!
Verification of the data-access, mapping, pagination, slug, image-pipeline and
storage-key layers of the aminazarf storefront/admin application.

The TypeScript source is shallowly embedded: JavaScript numbers are modelled by
`JsNumber` (a finite rational, NaN, or a signed infinity), loosely-typed remote
row fields by `JsVal`, fallible mappings by `Except`, and the stateful image
pipeline and multi-step delete flows by explicit state passing / action traces.
-/

set_option maxHeartbeats 1000000

/-- whitespace test modelling the JavaScript `\s` character class /
`String.prototype.trim` on the character repertoire this app manipulates
(ASCII whitespace and NBSP). -/
def isWsChar (c : Char) : Bool :=
  c.toNat = 9 || c.toNat = 10 || c.toNat = 11 || c.toNat = 12 ||
  c.toNat = 13 || c.toNat = 32 || c.toNat = 160

/-- model of a JavaScript `number`: a finite rational, `NaN`, or an infinity. -/
inductive JsNumber where
  | fin (q : ℚ)
  | nan
  | posInf
  | negInf
deriving DecidableEq, Repr

/-- model of `Number.isFinite`. -/
def JsNumber.isFinite : JsNumber → Bool
  | .fin _ => true
  | _ => false

/-- model of `Math.floor` (NaN and infinities pass through, as in JS). -/
def jsFloor : JsNumber → JsNumber
  | .fin q => .fin ((Int.floor q : ℤ) : ℚ)
  | x => x

/-- model of the JavaScript `<` comparison on numbers: any comparison with
`NaN` is false. -/
def jsLtB : JsNumber → JsNumber → Bool
  | .fin a, .fin b => decide (a < b)
  | .nan, _ => false
  | _, .nan => false
  | .negInf, .negInf => false
  | .negInf, _ => true
  | _, .negInf => false
  | .posInf, _ => false
  | _, .posInf => true

/-- model of the JavaScript `<=` comparison on numbers: any comparison with
`NaN` is false. -/
def jsLeB : JsNumber → JsNumber → Bool
  | .fin a, .fin b => decide (a ≤ b)
  | .nan, _ => false
  | _, .nan => false
  | .negInf, _ => true
  | _, .negInf => false
  | _, .posInf => true
  | .posInf, _ => false

/-- model of `Math.max` on two arguments: `NaN` is absorbing, otherwise the
larger argument. -/
def jsMax (a b : JsNumber) : JsNumber :=
  match a, b with
  | .nan, _ => .nan
  | _, .nan => .nan
  | x, y => if jsLtB x y then y else x

/-- model of a loosely-typed value received from the remote API (`unknown` in
the source). `jnum` carries only finite numbers; `jnan` stands for any
non-finite `number` (NaN or an infinity). -/
inductive JsVal where
  | jnull
  | jundef
  | jnum (q : ℚ)
  | jnan
  | jstr (s : String)
  | jbool (b : Bool)
deriving DecidableEq, Repr

/-- digit test for the characters `0`–`9`. -/
def isDigitChar (c : Char) : Bool := 48 ≤ c.toNat && c.toNat ≤ 57

/-- value of a digit string, most significant first. -/
def digitsToNat (l : List Char) : ℕ :=
  l.foldl (fun acc c => 10 * acc + (c.toNat - 48)) 0

/-- parse of an unsigned decimal literal (`digits`, `digits.digits`,
`.digits`, `digits.`), the shapes `Number(string)` accepts for plain
decimals; anything else is not a finite number here. -/
def parseDecimal (l : List Char) : Option ℚ :=
  let intPart := l.takeWhile isDigitChar
  let rest := l.dropWhile isDigitChar
  match rest with
  | [] => if intPart.isEmpty then none else some (digitsToNat intPart : ℚ)
  | '.' :: frac =>
    if frac.all isDigitChar && !(intPart.isEmpty && frac.isEmpty) then
      some ((digitsToNat intPart : ℚ) +
        (digitsToNat frac : ℚ) / ((10 : ℚ) ^ frac.length))
    else none
  | _ => none

/-- model of JavaScript `String.prototype.trim` on a character list. -/
def trimWsList (l : List Char) : List Char :=
  ((l.dropWhile isWsChar).reverse.dropWhile isWsChar).reverse

/-- model of `Number(string)`: trims, maps the empty string to `0`, parses an
optionally signed decimal literal, and yields `NaN` otherwise (exotic forms
such as hex or exponent literals are out of the repertoire this app feeds
it and also map to `nan`-or-unused here). -/
def strToNumber (s : String) : JsNumber :=
  match trimWsList s.toList with
  | [] => .fin 0
  | '-' :: rest =>
    match parseDecimal rest with
    | some q => .fin (-q)
    | none => .nan
  | '+' :: rest =>
    match parseDecimal rest with
    | some q => .fin q
    | none => .nan
  | l =>
    match parseDecimal l with
    | some q => .fin q
    | none => .nan

/-- model of the JavaScript `Number(value)` coercion. -/
def jsToNumber : JsVal → JsNumber
  | .jnull => .fin 0
  | .jundef => .nan
  | .jnum q => .fin q
  | .jnan => .nan
  | .jbool b => .fin (if b then 1 else 0)
  | .jstr s => strToNumber s

/-- model of JavaScript truthiness (`Boolean(value)`). -/
def jsTruthy : JsVal → Bool
  | .jnull => false
  | .jundef => false
  | .jnum q => decide (q ≠ 0)
  | .jnan => false
  | .jstr s => !s.isEmpty
  | .jbool b => b

/-- embeds `toFiniteNumber` (Admin.tsx): coerce to a number and throw
`Invalid numeric value` unless the result is finite. -/
def toFiniteNumber (value : JsVal) : Except String ℚ :=
  match jsToNumber value with
  | .fin n => .ok n
  | _ => .error "Invalid numeric value"

/-- embeds `toNullableFiniteNumber` (Admin.tsx): `null`/`undefined` map to
`null`, otherwise coerce and map a non-finite result to `null`. -/
def toNullableFiniteNumber (value : JsVal) : Option ℚ :=
  match value with
  | .jnull => none
  | .jundef => none
  | v =>
    match jsToNumber v with
    | .fin n => some n
    | _ => none

/-- decimal rendering with two fraction digits, modelling
`Number.prototype.toFixed(2)` (round half away from zero on the exact
rational value). -/
def ratToFixed2 (q : ℚ) : String :=
  let sign := if q < 0 then "-" else ""
  let cents : ℤ := Int.floor (|q| * 100 + 1/2)
  sign ++ toString (cents / 100) ++ "." ++
    (if cents % 100 < 10 then "0" else "") ++ toString (cents % 100)

/-- model of JavaScript `String(value)`; on finite numbers it is approximate
(that branch is unreachable from `formatPrice`, the only caller here,
because finite numbers take the `toFixed` branch first). -/
def jsToString : JsVal → String
  | .jnull => "null"
  | .jundef => "undefined"
  | .jnum q => ratToFixed2 q
  | .jnan => "NaN"
  | .jstr s => s
  | .jbool b => if b then "true" else "false"

/-- embeds `formatPrice` (use-products.ts): `null`/`undefined` → `null`;
finite number → `toFixed(2)`; non-blank string → itself; anything else →
`String(price)`. -/
def formatPrice (price : JsVal) : Option String :=
  match price with
  | .jnull => none
  | .jundef => none
  | .jnum q => some (ratToFixed2 q)
  | .jstr s =>
    if 0 < (String.mk (trimWsList s.toList)).length then some s
    else some (jsToString (.jstr s))
  | v => some (jsToString v)

/-- loosely-typed remote product row as both mapping layers receive it
(`ProductRow` in use-products.ts, the inline row type in Admin.tsx). -/
structure RawProductRow where
  id : JsVal
  name : String
  price : JsVal
  image : Option String
  category_id : JsVal
  in_stock : JsVal
deriving DecidableEq, Repr

/-- storefront `Product` as built by `mapProductRows` (catalog.ts shape):
`id` is whatever `Number(row.id)` yields (possibly NaN), `price` the
formatted display string, `image` defaulted to the placeholder image,
`inStock` the raw value defaulted to `true` by nullish coalescing. -/
structure Product where
  id : JsNumber
  name : String
  price : Option String
  image : String
  categoryId : Option JsNumber
  inStock : JsVal
deriving DecidableEq, Repr

/-- embeds the per-row body of `mapProductRows` (use-products.ts). -/
def mapProductRow (row : RawProductRow) : Product :=
  { id := jsToNumber row.id
    name := row.name
    price := formatPrice row.price
    image := row.image.getD "/images/ceramics.jpg"
    categoryId :=
      if row.category_id = .jnull then none else some (jsToNumber row.category_id)
    inStock :=
      if row.in_stock = .jnull || row.in_stock = .jundef then .jbool true
      else row.in_stock }

/-- embeds `mapProductRows` (use-products.ts). -/
def mapProductRows (rows : List RawProductRow) : List Product :=
  rows.map mapProductRow

/-- typed admin product row (`ProductRow` in Admin.tsx). -/
structure AdminProductRow where
  id : ℚ
  name : String
  category_id : Option ℚ
  in_stock : Bool
  price : Option ℚ
  image : Option String
deriving DecidableEq, Repr

/-- embeds the per-row mapping of the admin `productsQuery` (Admin.tsx):
required `id` through the throwing `toFiniteNumber`, optional numerics
through `toNullableFiniteNumber`, `in_stock` through `Boolean(...)`,
`image` through `?? null`. -/
def mapAdminProductRow (row : RawProductRow) : Except String AdminProductRow :=
  match toFiniteNumber row.id with
  | .error e => .error e
  | .ok n =>
    .ok { id := n
          name := row.name
          category_id := toNullableFiniteNumber row.category_id
          in_stock := jsTruthy row.in_stock
          price := toNullableFiniteNumber row.price
          image := row.image }

/-- paged result record (`PagedResult<T>` in use-products.ts). -/
structure PagedResult (α : Type) where
  items : List α
  total : ℕ
  page : ℕ
  pageSize : ℕ
  totalPages : ℤ
deriving DecidableEq, Repr

/-- the `Math.max(1, Math.ceil(total / pageSize))` expression shared by the
three paged query functions; the division is exact over ℚ and `Math.ceil`
is the rational ceiling. -/
def jsTotalPages (total pageSize : ℕ) : ℤ :=
  max 1 ⌈(total : ℚ) / (pageSize : ℚ)⌉

/-- embeds the `queryFn` of `useProductsPaged` (use-products.ts), given the
remote response (rows plus exact count, or an error). -/
def productsPagedQueryFn (safePage safePageSize : ℕ)
    (resp : Except String (List RawProductRow × Option ℕ)) :
    Except String (PagedResult Product) :=
  match resp with
  | .error e => .error e
  | .ok (rows, count) =>
    let total := count.getD 0
    .ok { items := mapProductRows rows
          total := total
          page := safePage
          pageSize := safePageSize
          totalPages := jsTotalPages total safePageSize }

/-- embeds the `queryFn` of the admin `productsQuery` (Admin.tsx). -/
def adminProductsQueryFn (productsPage pageSize : ℕ)
    (resp : Except String (List RawProductRow × Option ℕ)) :
    Except String (PagedResult AdminProductRow) :=
  match resp with
  | .error e => .error e
  | .ok (rows, count) =>
    match rows.mapM mapAdminProductRow with
    | .error e => .error e
    | .ok items =>
      let total := count.getD 0
      .ok { items := items
            total := total
            page := productsPage
            pageSize := pageSize
            totalPages := jsTotalPages total pageSize }

/-- embeds the `queryFn` of `useProductsByCategoryPaged` (use-products.ts):
resolve the slug to a category id first; a missing category yields an empty
successful page and the products query is never issued. The boolean records
whether the products query was issued. -/
def productsByCategoryPagedQueryFn (slug : Option String)
    (safePage safePageSize : ℕ)
    (lookup : Except String (Option ℚ))
    (fetch : ℚ → Except String (List RawProductRow × Option ℕ)) :
    Except String (PagedResult Product) × Bool :=
  let emptyPage : PagedResult Product :=
    { items := [], total := 0, page := safePage, pageSize := safePageSize,
      totalPages := 1 }
  match slug with
  | none => (.ok emptyPage, false)
  | some s =>
    if s.isEmpty then (.ok emptyPage, false)
    else
      match lookup with
      | .error e => (.error e, false)
      | .ok none => (.ok emptyPage, false)
      | .ok (some cid) =>
        match fetch cid with
        | .error e => (.error e, true)
        | .ok (rows, count) =>
          let total := count.getD 0
          (.ok { items := mapProductRows rows
                 total := total
                 page := safePage
                 pageSize := safePageSize
                 totalPages := jsTotalPages total safePageSize }, true)

/-- embeds `clampPage` (use-products.ts). -/
def clampPage (page : JsNumber) : JsNumber :=
  if !page.isFinite || jsLtB page (.fin 1) then .fin 1 else jsFloor page

/-- embeds the inline `Math.max(1, Math.floor(pageSize))` both paged hooks
apply to `pageSize`. -/
def safePageSizeOf (pageSize : JsNumber) : JsNumber :=
  jsMax (.fin 1) (jsFloor pageSize)

/-- the clamped `(safePage, safePageSize)` pair both paged hooks compute
before issuing the remote query. -/
def usedPageParams (page pageSize : JsNumber) : JsNumber × JsNumber :=
  (clampPage page, safePageSizeOf pageSize)

/-- lowercase latin letter test (`a`–`z`). -/
def isLowerAlpha (c : Char) : Bool := 97 ≤ c.toNat && c.toNat ≤ 122

/-- character set of a finished slug: lowercase latin, digit, or hyphen. -/
def isSlugChar (c : Char) : Bool := isLowerAlpha c || isDigitChar c || c == '-'

/-- model of `String.prototype.toLowerCase` restricted to the repertoire the
app manipulates: ASCII `A`–`Z` and Cyrillic `А`–`Я`/`Ё` are lowercased,
everything else is unchanged. -/
def jsToLower (c : Char) : Char :=
  let n := c.toNat
  if 65 ≤ n && n ≤ 90 then Char.ofNat (n + 32)
  else if 1040 ≤ n && n ≤ 1071 then Char.ofNat (n + 32)
  else if n = 1025 then Char.ofNat 1105
  else c

/-- the Cyrillic transliteration table of `slugify` (Admin.tsx). -/
def translitPairs : List (Char × List Char) :=
  [('а', ['a']), ('б', ['b']), ('в', ['v']), ('г', ['g']), ('д', ['d']),
   ('е', ['e']), ('ё', ['e']), ('ж', ['z', 'h']), ('з', ['z']), ('и', ['i']),
   ('й', ['y']), ('к', ['k']), ('л', ['l']), ('м', ['m']), ('н', ['n']),
   ('о', ['o']), ('п', ['p']), ('р', ['r']), ('с', ['s']), ('т', ['t']),
   ('у', ['u']), ('ф', ['f']), ('х', ['h']), ('ц', ['t', 's']),
   ('ч', ['c', 'h']), ('ш', ['s', 'h']), ('щ', ['s', 'c', 'h']),
   ('ъ', []), ('ы', ['y']), ('ь', []), ('э', ['e']), ('ю', ['y', 'u']),
   ('я', ['y', 'a'])]

/-- per-character transliteration (`map[ch] !== undefined ? map[ch] : ch`). -/
def translitChar (c : Char) : List Char :=
  match translitPairs.lookup c with
  | some out => out
  | none => [c]

/-- quote test for the `/['\"]/g` removal step of `slugify`. -/
def isQuoteChar (c : Char) : Bool := c == '\'' || c == '"'

/-- character class kept by the `/[^a-z0-9\s-]/g` removal step of `slugify`. -/
def isAllowedChar (c : Char) : Bool :=
  isLowerAlpha c || isDigitChar c || isWsChar c || c == '-'

/-- worker for `collapseRuns`: the boolean records whether the scan is
currently inside a run of `p`-characters whose replacement has already been
emitted. -/
def collapseRunsGo (p : Char → Bool) (r : Char) : Bool → List Char → List Char
  | _, [] => []
  | inRun, c :: cs =>
    if p c then
      if inRun then collapseRunsGo p r true cs
      else r :: collapseRunsGo p r true cs
    else c :: collapseRunsGo p r false cs

/-- replacement of each maximal run of `p`-characters by the single character
`r`, modelling the two global regex replaces of `slugify` that rewrite
each whitespace run, and then each hyphen run, to a single hyphen. -/
def collapseRuns (p : Char → Bool) (r : Char) (l : List Char) : List Char :=
  collapseRunsGo p r false l

/-- drop of a single leading hyphen, the `^-` half of the edge-hyphen
replace of `slugify`. -/
def dropLeadHyphen (l : List Char) : List Char :=
  match l with
  | c :: rest => if c = '-' then rest else l
  | [] => []

/-- drop of a single trailing hyphen, the `-$` half of the edge-hyphen
replace of `slugify`. -/
def dropLastHyphen (l : List Char) : List Char :=
  if l.getLast? = some '-' then l.dropLast else l

/-- model of the edge-hyphen replace of `slugify` (global, unanchored-middle:
without the `m` flag the anchors only match the string edges, so exactly one
leading and one trailing hyphen are removed). -/
def trimEdgeHyphens (l : List Char) : List Char :=
  dropLastHyphen (dropLeadHyphen l)

/-- normalization pipeline of `slugify` (Admin.tsx) before the empty-result
fallback: trim, lowercase, transliterate, strip quotes, strip characters
outside `[a-z0-9\s-]`, collapse whitespace runs to hyphens, collapse hyphen
runs, trim edge hyphens. -/
def slugifyBase (input : List Char) : List Char :=
  let translit := (((trimWsList input).map jsToLower).map translitChar).flatten
  let noQuotes := translit.filter (fun c => !isQuoteChar c)
  let kept := noQuotes.filter isAllowedChar
  let wsCollapsed := collapseRuns isWsChar '-' kept
  let hyphenCollapsed := collapseRuns (fun c => c == '-') '-' wsCollapsed
  trimEdgeHyphens hyphenCollapsed

/-- fuelled decimal digit accumulation for `natDigits`; the fuel is an upper
bound on the number of digits still to emit. -/
def natDigitsGo : ℕ → ℕ → List Char → List Char
  | 0, _, acc => acc
  | fuel + 1, n, acc =>
    if n = 0 then acc
    else natDigitsGo fuel (n / 10) (Char.ofNat (48 + n % 10) :: acc)

/-- decimal rendering of a natural number, modelling the `${Date.now()}`
interpolation in the fallback slug. -/
def natDigits (n : ℕ) : List Char :=
  if n = 0 then ['0'] else natDigitsGo n n []

/-- embeds `slugify` (Admin.tsx); `now` stands for `Date.now()`. -/
def slugify (now : ℕ) (input : List Char) : List Char :=
  let base := slugifyBase input
  if base.isEmpty then "category-".toList ++ natDigits now else base

/-- absence of two adjacent hyphens. -/
def noHyphenRunB : List Char → Bool
  | [] => true
  | [_] => true
  | a :: b :: rest => !(a == '-' && b == '-') && noHyphenRunB (b :: rest)

/-- spec-side notion of an already-valid slug: nonempty, only slug
characters, no hyphen runs, no edge hyphens. -/
def isValidSlug (l : List Char) : Bool :=
  !l.isEmpty && l.all isSlugChar && noHyphenRunB l &&
  l.head? != some '-' && l.getLast? != some '-'


/-- a selected browser file, identified by an opaque id and its byte size. -/
structure JsFile where
  id : ℕ
  size : ℕ
deriving DecidableEq, Repr

/-- visible state of the product-image preparation pipeline (Admin.tsx):
`counter` is `compressJobRef.current`, `previewOf` records which file the
object URL `productImagePreviewUrl` was created for (`none` = empty). -/
structure ImgState where
  counter : ℕ
  file : Option JsFile
  previewOf : Option JsFile
  originalBytes : Option ℕ
  compressedBytes : Option ℕ
  compressing : Bool
deriving DecidableEq, Repr

/-- embeds the synchronous part of the product-image `onChange` handler
(Admin.tsx): release the previous preview, reset the staged state, record
the original size, and, when a file was selected, assign the next job id
and start compressing. Returns the pending job, if any. -/
def selectFile (s : ImgState) (selected : Option JsFile) :
    ImgState × Option (ℕ × JsFile) :=
  let s1 : ImgState :=
    { s with
      file := none
      previewOf := none
      originalBytes := selected.map (·.size)
      compressedBytes := none }
  match selected with
  | none => ({ s1 with compressing := false }, none)
  | some f =>
    let jobId := s1.counter + 1
    ({ s1 with counter := jobId, compressing := true }, some (jobId, f))

/-- embeds the asynchronous continuation of the `onChange` handler: the
settled compression promise for job `jobId` on file `selected` updates the
visible state only if the job is still the latest; success stages the
compressed file, rejection falls back to staging the original file. -/
def resolveJob (s : ImgState) (jobId : ℕ) (selected : JsFile)
    (result : Except Unit JsFile) : ImgState :=
  if s.counter ≠ jobId then s
  else
    match result with
    | .ok compressed =>
      { s with
        file := some compressed
        compressedBytes := some compressed.size
        previewOf := some compressed
        compressing := false }
    | .error _ =>
      { s with
        file := some selected
        compressedBytes := some selected.size
        previewOf := some selected
        compressing := false }

/-- lowercase-latin-or-digit test (the `[a-z0-9]+` extension class). -/
def isLowerAlphaNum (c : Char) : Bool := isLowerAlpha c || isDigitChar c

/-- extension derivation of `uploadProductImage` (Admin.tsx): the last
dot-component of the file name, lowercased, if it matches `[a-z0-9]+`,
otherwise `bin`. -/
def extOf (name : List Char) : List Char :=
  let extRaw := ((name.splitOn '.').getLastD []).map jsToLower
  if !extRaw.isEmpty && extRaw.all isLowerAlphaNum then extRaw
  else ['b', 'i', 'n']

/-- storage key built by `uploadProductImage` (Admin.tsx):
timestamp, hyphen, unique suffix, dot, sanitized extension. `now` stands
for `Date.now()` and `uniqueId` for the `crypto.randomUUID()` /
`Math.random().toString(16).slice(2)` suffix. -/
def uploadProductImagePath (now : ℕ) (uniqueId : List Char)
    (name : List Char) : List Char :=
  natDigits now ++ '-' :: (uniqueId ++ '.' :: extOf name)

/-- the public-object marker of the `product-images` bucket
(`/storage/v1/object/public/product-images/`). -/
def storageMarker : List Char := "/storage/v1/object/public/product-images/".toList

/-- index of the first occurrence of `pat` in a list (JS `indexOf`). -/
def firstMatchIdx (pat : List Char) : List Char → Option ℕ
  | [] => if pat.isEmpty then some 0 else none
  | c :: cs =>
    if pat.isPrefixOf (c :: cs) then some 0
    else (firstMatchIdx pat cs).map (· + 1)

/-- hexadecimal digit value. -/
def hexVal (c : Char) : Option ℕ :=
  if 48 ≤ c.toNat && c.toNat ≤ 57 then some (c.toNat - 48)
  else if 97 ≤ c.toNat && c.toNat ≤ 102 then some (c.toNat - 87)
  else if 65 ≤ c.toNat && c.toNat ≤ 70 then some (c.toNat - 55)
  else none

/-- model of `decodeURIComponent` on the single-byte escapes this app could
meet; a `%` not followed by two hex digits is kept as-is. -/
def jsDecodeURIComponent : List Char → List Char
  | [] => []
  | '%' :: a :: b :: rest =>
    match hexVal a, hexVal b with
    | some ha, some hb => Char.ofNat (16 * ha + hb) :: jsDecodeURIComponent rest
    | _, _ => '%' :: jsDecodeURIComponent (a :: b :: rest)
  | c :: cs => c :: jsDecodeURIComponent cs

/-- embeds `getStoragePathFromPublicUrl` (Admin.tsx). The source parses the
URL and searches its pathname, falling back to a raw substring search for
non-absolute URLs; for the URL shapes this app produces (an origin that
does not itself contain the bucket marker, no query or fragment) both
branches compute the same marker-relative suffix, embedded here as the
substring search over the whole URL string. -/
def getStoragePathFromPublicUrl (publicUrl : List Char) : Option (List Char) :=
  if publicUrl.isEmpty then none
  else
    match firstMatchIdx storageMarker publicUrl with
    | none => none
    | some idx =>
      let path := publicUrl.drop (idx + storageMarker.length)
      if path.isEmpty then none else some (jsDecodeURIComponent path)

/-- public URL the storage service derives from a key
(`projectBase ++ marker ++ key`). -/
def mkPublicUrl (base key : List Char) : List Char :=
  base ++ storageMarker ++ key

/-- remote database/storage error shape inspected by `getDbErrorMessage`. -/
structure DbError where
  code : Option String
  message : Option String
  details : Option String
deriving DecidableEq, Repr

/-- blank test (`trim().length` falsiness). -/
def nonBlank (s : String) : Bool := !(trimWsList s.toList).isEmpty

/-- embeds `getDbErrorMessage` (Admin.tsx) on object-shaped errors. -/
def getDbErrorMessage (error : DbError) (fallback : String) : String :=
  if error.code = some "23505" then
    "Значение уже существует (нарушено уникальное ограничение)"
  else if error.code = some "23503" then
    "Некорректная ссылка (возможно, выбрана удалённая категория)"
  else if error.code = some "23502" then
    "Не заполнены обязательные поля"
  else
    let fromDetails : String :=
      match error.details with
      | some d => if nonBlank d then d else fallback
      | none => fallback
    match error.message with
    | some m => if nonBlank m then m else fromDetails
    | none => fromDetails

/-- observable action of an admin mutation flow. -/
inductive AdminAction where
  | selectImage (id : ℚ)
  | deleteRow (table : String) (id : ℚ)
  | removeStorage (path : List Char)
  | invalidate (key : String)
  | toastSuccess (msg : String)
  | toastError (msg : String)
deriving DecidableEq, Repr

/-- truthiness of a nullable string. -/
def truthyOptStr : Option String → Bool
  | some s => !s.isEmpty
  | none => false

/-- embeds `deleteProduct` (Admin.tsx) as its trace of observable actions.
`cacheItems` is the already-loaded admin page, `lookupImage` the
`.data?.image ?? null` of the fallback point lookup, and the two error
parameters the outcomes of the row deletion and the storage removal. -/
def deleteProduct (cacheItems : List AdminProductRow) (id : ℚ)
    (lookupImage : Option String)
    (rowDeleteError : Option DbError)
    (storageRemoveError : Option DbError) : List AdminAction :=
  let imageFromCache : Option String :=
    match cacheItems.find? (fun p => p.id == id) with
    | some p => p.image
    | none => none
  let lookupTrace : List AdminAction :=
    if truthyOptStr imageFromCache then [] else [.selectImage id]
  let imageUrl : Option String :=
    if truthyOptStr imageFromCache then imageFromCache else lookupImage
  match rowDeleteError with
  | some e =>
    lookupTrace ++ [.deleteRow "products" id,
      .toastError (getDbErrorMessage e "Не удалось удалить")]
  | none =>
    let storagePath : Option (List Char) :=
      match imageUrl with
      | some u => if u.isEmpty then none else getStoragePathFromPublicUrl u.toList
      | none => none
    let storageTrace : List AdminAction :=
      match storagePath with
      | some p =>
        .removeStorage p ::
          (match storageRemoveError with
           | some se =>
             [.toastError (getDbErrorMessage se
               "Товар удалён, но не удалось удалить фото из хранилища")]
           | none => [])
      | none => []
    lookupTrace ++ [.deleteRow "products" id] ++ storageTrace ++
      [.invalidate "adminProducts", .invalidate "products",
       .invalidate "productsByCategory", .toastSuccess "Товар удалён"]

/-- embeds `deleteCategory` (Admin.tsx) as its trace of observable actions. -/
def deleteCategory (id : ℚ) (deleteError : Option DbError) : List AdminAction :=
  match deleteError with
  | some e =>
    [.deleteRow "categories" id,
     .toastError (getDbErrorMessage e "Не удалось удалить")]
  | none =>
    [.deleteRow "categories" id,
     .invalidate "adminCategories", .invalidate "adminProducts",
     .invalidate "categories", .invalidate "products",
     .invalidate "productsByCategory", .toastSuccess "Категория удалена"]

/-- stored category row. -/
structure DbCategoryRow where
  id : ℚ
  name : String
  slug : String
deriving DecidableEq, Repr

/-- remote store state: the two tables the admin mutations touch. -/
structure DbState where
  categories : List DbCategoryRow
  products : List AdminProductRow
deriving DecidableEq, Repr

/-- effect of one action on the store: a row deletion filters the addressed
table, everything else is store-neutral. -/
def execAction (st : DbState) (a : AdminAction) : DbState :=
  match a with
  | .deleteRow t rid =>
    if t = "categories" then
      { st with categories := st.categories.filter (fun c => c.id != rid) }
    else if t = "products" then
      { st with products := st.products.filter (fun p => p.id != rid) }
    else st
  | _ => st

/-- effect of a whole trace on the store. -/
def execTrace (st : DbState) (tr : List AdminAction) : DbState :=
  tr.foldl execAction st

/-- the database writes of a trace. -/
def dbWrites (tr : List AdminAction) : List AdminAction :=
  tr.filter (fun a => match a with | .deleteRow _ _ => true | _ => false)


/-- spec-side page count `max(1, ceil(total / pageSize))`, with the ceiling
division written over ℕ as the spec states it. -/
def specTotalPages (total pageSize : ℕ) : ℤ :=
  max 1 ((total + pageSize - 1) / pageSize : ℕ)

/-- C6 (amended): for every finite `page` and `pageSize`, the values the
paged hooks actually use equal `max(1, floor(page))` and
`max(1, floor(pageSize))` and are ≥ 1; `clampPage` additionally maps every
non-finite `page` to 1, while a non-finite `pageSize` is not guarded: `NaN`
propagates through `Math.max(1, Math.floor(pageSize))`. -/
theorem usedPageParams_clamp (page pageSize : ℚ) :
    usedPageParams (.fin page) (.fin pageSize) =
      (.fin ((max 1 ⌊page⌋ : ℤ) : ℚ), .fin ((max 1 ⌊pageSize⌋ : ℤ) : ℚ)) ∧
    (1 : ℤ) ≤ max 1 ⌊page⌋ ∧ (1 : ℤ) ≤ max 1 ⌊pageSize⌋ ∧
    clampPage .nan = .fin 1 ∧ clampPage .posInf = .fin 1 ∧
    clampPage .negInf = .fin 1 ∧ safePageSizeOf .nan = .nan := by
  refine ⟨?_, le_max_left 1 _, le_max_left 1 _, by decide, by decide, by decide, by decide⟩
  unfold usedPageParams clampPage safePageSizeOf
  rw [Prod.mk.injEq]
  constructor
  · by_cases hq : page < 1
    · have h1 : ⌊page⌋ < 1 := Int.floor_lt.mpr (by exact_mod_cast hq)
      have h2 : max 1 ⌊page⌋ = 1 := by omega
      simp [JsNumber.isFinite, jsLtB, hq, h2]
    · have h1 : (1 : ℤ) ≤ ⌊page⌋ := Int.le_floor.mpr (by push_cast; linarith)
      have h2 : max 1 ⌊page⌋ = ⌊page⌋ := by omega
      simp [JsNumber.isFinite, jsLtB, hq, h2, jsFloor]
  · show jsMax (.fin 1) (jsFloor (.fin pageSize)) = _
    by_cases hq : (1 : ℚ) < (⌊pageSize⌋ : ℚ)
    · have h1 : (1 : ℤ) < ⌊pageSize⌋ := by exact_mod_cast hq
      have h2 : max 1 ⌊pageSize⌋ = ⌊pageSize⌋ := by omega
      simp [jsMax, jsFloor, jsLtB, hq, h2]
    · have h1 : ⌊pageSize⌋ ≤ 1 := by
        have : (⌊pageSize⌋ : ℚ) ≤ 1 := le_of_not_lt hq
        exact_mod_cast this
      have h2 : max 1 ⌊pageSize⌋ = 1 := by omega
      simp [jsMax, jsFloor, jsLtB, hq, h2]

/-- C6 counterexample: at input `pageSize = NaN` the value actually used by
the hooks is `NaN`: it is not finite and not ≥ 1 under the JS comparison,
so the clamping claim does not hold for every input. -/
theorem usedPageParams_nan_counterexample :
    (usedPageParams (.fin 1) .nan).2 = .nan ∧
    jsLeB (.fin 1) (usedPageParams (.fin 1) .nan).2 = false ∧
    (usedPageParams (.fin 1) .nan).2.isFinite = false := by decide

/-- C2: when the category lookup resolves no row, the category-filtered
paged query returns the empty successful page
`(items = [], total = 0, totalPages = 1)` and never issues the products
query, for every page, pageSize and nonempty slug. -/
theorem categoryPaged_missing_category (slug : String) (hs : slug.isEmpty = false)
    (safePage safePageSize : ℕ)
    (fetch : ℚ → Except String (List RawProductRow × Option ℕ)) :
    productsByCategoryPagedQueryFn (some slug) safePage safePageSize
        (.ok none) fetch =
      (.ok { items := [], total := 0, page := safePage,
             pageSize := safePageSize, totalPages := 1 }, false) := by
  simp [productsByCategoryPagedQueryFn, hs]

/-- C2 witness at a concrete missing slug, with a fetch oracle that would
have returned rows had it been consulted. -/
theorem categoryPaged_missing_category_witness :
    productsByCategoryPagedQueryFn (some "missing") 3 7 (.ok none)
        (fun _ => .ok ([], some 99)) =
      (.ok { items := [], total := 0, page := 3, pageSize := 7,
             totalPages := 1 }, false) :=
  categoryPaged_missing_category "missing" (by decide) 3 7 _

/-- C8: when compression rejects and the job is still the latest, the
handler stages the original file as the prepared result: the staged upload
file, the compressed-byte counter and the preview all refer to the
original selection, and the pipeline leaves the compressing state. -/
theorem compressFallback_stages_original (s0 : ImgState) (f : JsFile) :
    (selectFile s0 (some f)).2 = some (s0.counter + 1, f) ∧
    resolveJob (selectFile s0 (some f)).1 (s0.counter + 1) f (.error ()) =
      { counter := s0.counter + 1, file := some f, previewOf := some f,
        originalBytes := some f.size, compressedBytes := some f.size,
        compressing := false } := by
  constructor
  · rfl
  · simp [selectFile, resolveJob]

/-- C3: after two rapid selections A then B, both settlement orders of the
two compression promises end in the state produced by B's settlement alone;
the staged file and preview are B's outcome; and a settlement whose job id
no longer equals the counter never changes the visible state. -/
theorem imagePipeline_latest_wins (s0 : ImgState) (fA fB : JsFile)
    (rA rB : Except Unit JsFile) :
    (selectFile s0 (some fA)).2 = some (s0.counter + 1, fA) ∧
    (selectFile (selectFile s0 (some fA)).1 (some fB)).2 =
      some (s0.counter + 2, fB) ∧
    resolveJob
        (resolveJob (selectFile (selectFile s0 (some fA)).1 (some fB)).1
          (s0.counter + 1) fA rA)
        (s0.counter + 2) fB rB =
      resolveJob (selectFile (selectFile s0 (some fA)).1 (some fB)).1
        (s0.counter + 2) fB rB ∧
    resolveJob
        (resolveJob (selectFile (selectFile s0 (some fA)).1 (some fB)).1
          (s0.counter + 2) fB rB)
        (s0.counter + 1) fA rA =
      resolveJob (selectFile (selectFile s0 (some fA)).1 (some fB)).1
        (s0.counter + 2) fB rB ∧
    (resolveJob (selectFile (selectFile s0 (some fA)).1 (some fB)).1
        (s0.counter + 2) fB rB).file =
      some (match rB with | .ok c => c | .error _ => fB) ∧
    (resolveJob (selectFile (selectFile s0 (some fA)).1 (some fB)).1
        (s0.counter + 2) fB rB).previewOf =
      some (match rB with | .ok c => c | .error _ => fB) ∧
    (∀ (s : ImgState) (j : ℕ) (f : JsFile) (r : Except Unit JsFile),
      s.counter ≠ j → resolveJob s j f r = s) := by
  have hstale : ∀ (s : ImgState) (j : ℕ) (f : JsFile) (r : Except Unit JsFile),
      s.counter ≠ j → resolveJob s j f r = s := by
    intro s j f r h
    simp [resolveJob, h]
  have hc2 : ((selectFile (selectFile s0 (some fA)).1 (some fB)).1).counter =
      s0.counter + 2 := rfl
  have hcr : (resolveJob (selectFile (selectFile s0 (some fA)).1 (some fB)).1
      (s0.counter + 2) fB rB).counter = s0.counter + 2 := by
    cases rB <;> simp [resolveJob, hc2]
  refine ⟨rfl, rfl, ?_, ?_, ?_, ?_, hstale⟩
  · rw [hstale ((selectFile (selectFile s0 (some fA)).1 (some fB)).1)
      (s0.counter + 1) fA rA (by rw [hc2]; omega)]
  · rw [hstale (resolveJob ((selectFile (selectFile s0 (some fA)).1 (some fB)).1)
      (s0.counter + 2) fB rB) (s0.counter + 1) fA rA (by rw [hcr]; omega)]
  · cases rB <;> simp [resolveJob, hc2]
  · cases rB <;> simp [resolveJob, hc2]

/-- C3 witness: the staleness guard applied at a concrete superseded job. -/
theorem imagePipeline_latest_wins_witness :
    resolveJob
        { counter := 5, file := none, previewOf := none, originalBytes := none,
          compressedBytes := none, compressing := true }
        3 { id := 0, size := 10 } (.ok { id := 1, size := 4 }) =
      { counter := 5, file := none, previewOf := none, originalBytes := none,
        compressedBytes := none, compressing := true } :=
  (imagePipeline_latest_wins
      { counter := 0, file := none, previewOf := none, originalBytes := none,
        compressedBytes := none, compressing := false }
      { id := 0, size := 10 } { id := 1, size := 4 }
      (.ok { id := 1, size := 4 }) (.ok { id := 1, size := 4 })).2.2.2.2.2.2
    { counter := 5, file := none, previewOf := none, originalBytes := none,
      compressedBytes := none, compressing := true }
    3 { id := 0, size := 10 } (.ok { id := 1, size := 4 }) (by decide)

/-- C10: `deleteCategory` issues exactly one row deletion, addressed to the
categories table only: executing its trace leaves every product row
unchanged, and on success removes exactly the matching category rows. -/
theorem deleteCategory_products_frame (st : DbState) (id : ℚ)
    (err : Option DbError) :
    dbWrites (deleteCategory id err) = [.deleteRow "categories" id] ∧
    (execTrace st (deleteCategory id err)).products = st.products ∧
    (err = none →
      (execTrace st (deleteCategory id err)).categories =
        st.categories.filter (fun c => c.id != id)) := by
  cases err <;> simp [deleteCategory, dbWrites, execTrace, execAction]

/-- C10 witness: a concrete store with one category and one product
referencing it; the category delete keeps the product row intact. -/
theorem deleteCategory_products_frame_witness :
    (execTrace
        { categories := [{ id := 1, name := "a", slug := "a" }],
          products := [{ id := 2, name := "p", category_id := some 1,
                         in_stock := true, price := none, image := none }] }
        (deleteCategory 1 none)).products =
      [{ id := 2, name := "p", category_id := some 1, in_stock := true,
         price := none, image := none }] ∧
    (execTrace
        { categories := [{ id := 1, name := "a", slug := "a" }],
          products := [{ id := 2, name := "p", category_id := some 1,
                         in_stock := true, price := none, image := none }] }
        (deleteCategory 1 none)).categories = [] := by
  have h := deleteCategory_products_frame
    { categories := [{ id := 1, name := "a", slug := "a" }],
      products := [{ id := 2, name := "p", category_id := some 1,
                     in_stock := true, price := none, image := none }] }
    1 none
  refine ⟨h.2.1, ?_⟩
  rw [h.2.2 rfl]
  decide

/-- C7: the row deletion in `deleteProduct` is authoritative. When the row
deletion succeeds and the storage removal fails, the flow still reports the
product as deleted, surfaces the storage failure as a separate warning
toast, and issues no database write other than the one delete (nothing is
rolled back). When the row deletion fails, no storage removal is attempted
and exactly one toast — the error — is surfaced. -/
theorem deleteProduct_row_authoritative (cache : List AdminProductRow)
    (id : ℚ) (lookupImage : Option String) (se re : DbError)
    (anyStorage : Option DbError) :
    (AdminAction.toastSuccess "Товар удалён" ∈
        deleteProduct cache id lookupImage none (some se) ∧
     dbWrites (deleteProduct cache id lookupImage none (some se)) =
        [.deleteRow "products" id] ∧
     (∀ p, AdminAction.removeStorage p ∈
        deleteProduct cache id lookupImage none (some se) →
       AdminAction.toastError (getDbErrorMessage se
           "Товар удалён, но не удалось удалить фото из хранилища") ∈
         deleteProduct cache id lookupImage none (some se))) ∧
    ((∀ p, AdminAction.removeStorage p ∉
        deleteProduct cache id lookupImage (some re) anyStorage) ∧
     dbWrites (deleteProduct cache id lookupImage (some re) anyStorage) =
        [.deleteRow "products" id] ∧
     (deleteProduct cache id lookupImage (some re) anyStorage).countP
         (fun a => match a with
           | .toastError _ => true
           | .toastSuccess _ => true
           | _ => false) = 1 ∧
     AdminAction.toastError (getDbErrorMessage re "Не удалось удалить") ∈
       deleteProduct cache id lookupImage (some re) anyStorage) := by
  constructor
  · refine ⟨?_, ?_, ?_⟩ <;>
    · simp only [deleteProduct]
      split_ifs <;> (try split) <;>
        simp [dbWrites, List.countP_append, List.countP_cons]
  · refine ⟨?_, ?_, ?_, ?_⟩ <;>
    · simp only [deleteProduct]
      split_ifs <;>
        simp [dbWrites, List.countP_append, List.countP_cons]

/-- C7 witness at a concrete cache, product id and failing storage removal
(first half), and a concrete failing row deletion (second half). -/
theorem deleteProduct_row_authoritative_witness :
    AdminAction.toastSuccess "Товар удалён" ∈
      deleteProduct
        [{ id := 4, name := "p", category_id := none, in_stock := true,
           price := none,
           image := some "https://x.co/storage/v1/object/public/product-images/k.jpg" }]
        4 none none
        (some { code := none, message := some "boom", details := none }) ∧
    (∀ p, AdminAction.removeStorage p ∉
      deleteProduct [] 4 none
        (some { code := none, message := some "down", details := none }) none) :=
  ⟨(deleteProduct_row_authoritative
      [{ id := 4, name := "p", category_id := none, in_stock := true,
         price := none,
         image := some "https://x.co/storage/v1/object/public/product-images/k.jpg" }]
      4 none { code := none, message := some "boom", details := none }
      { code := none, message := some "down", details := none } none).1.1,
   (deleteProduct_row_authoritative [] 4 none
      { code := none, message := some "boom", details := none }
      { code := none, message := some "down", details := none } none).2.1⟩

/-- the JS page-count expression agrees with the spec's ℕ ceiling division
whenever the page size is positive. -/
theorem jsTotalPages_eq_spec (total pageSize : ℕ) (hp : 1 ≤ pageSize) :
    jsTotalPages total pageSize = specTotalPages total pageSize := by
  unfold jsTotalPages specTotalPages
  congr 1
  have hp0 : (0 : ℚ) < (pageSize : ℚ) := by exact_mod_cast hp
  set n : ℕ := (total + pageSize - 1) / pageSize with hn
  have hdm := Nat.div_add_mod (total + pageSize - 1) pageSize
  rw [← hn] at hdm
  have hrlt : (total + pageSize - 1) % pageSize < pageSize :=
    Nat.mod_lt _ (by omega)
  set r : ℕ := (total + pageSize - 1) % pageSize with hr
  generalize hM : pageSize * n = M at hdm
  have hub : (total : ℤ) ≤ (M : ℤ) ∧ (M : ℤ) < total + pageSize := by omega
  have hMq : (pageSize : ℚ) * (n : ℚ) = (M : ℚ) := by exact_mod_cast hM
  have hub1 : (total : ℚ) ≤ (M : ℚ) := by exact_mod_cast hub.1
  have hub2 : (M : ℚ) < (total : ℚ) + (pageSize : ℚ) := by exact_mod_cast hub.2
  rw [Int.ceil_eq_iff]
  constructor
  · rw [lt_div_iff₀ hp0]
    push_cast
    nlinarith [hMq, hub2]
  · rw [div_le_iff₀ hp0]
    push_cast
    nlinarith [hMq, hub1]

/-- C1: with a clamped pageSize ≥ 1, each of the three paged product query
functions — storefront paged, admin paged, and category-filtered paged —
returns `totalPages = max(1, ceil(total / pageSize))` (spec ceiling over
ℕ); in particular `totalPages = 1` when `total = 0`, and `totalPages ≥ 1`
in every successful result. -/
theorem pagedQueries_totalPages (page pageSize : ℕ) (hp : 1 ≤ pageSize)
    (rows : List RawProductRow) (count : Option ℕ) (slug : String) (cid : ℚ)
    (fetch : ℚ → Except String (List RawProductRow × Option ℕ)) :
    (∀ r, productsPagedQueryFn page pageSize (.ok (rows, count)) = .ok r →
      r.totalPages = specTotalPages r.total pageSize ∧
      (r.total = 0 → r.totalPages = 1) ∧ 1 ≤ r.totalPages) ∧
    (∀ r, adminProductsQueryFn page pageSize (.ok (rows, count)) = .ok r →
      r.totalPages = specTotalPages r.total pageSize ∧
      (r.total = 0 → r.totalPages = 1) ∧ 1 ≤ r.totalPages) ∧
    (∀ r, fetch cid = .ok (rows, count) →
      (productsByCategoryPagedQueryFn (some slug) page pageSize
        (.ok (some cid)) fetch).1 = .ok r →
      r.totalPages = specTotalPages r.total pageSize ∧
      (r.total = 0 → r.totalPages = 1) ∧ 1 ≤ r.totalPages) := by
  have hzero : specTotalPages 0 pageSize = 1 := by
    unfold specTotalPages
    have h0 : (0 + pageSize - 1) / pageSize = 0 := Nat.div_eq_of_lt (by omega)
    rw [h0]
    simp
  have key : ∀ total : ℕ,
      jsTotalPages total pageSize = specTotalPages total pageSize ∧
      (total = 0 → jsTotalPages total pageSize = 1) ∧
      1 ≤ jsTotalPages total pageSize := by
    intro t
    refine ⟨jsTotalPages_eq_spec t pageSize hp, ?_, ?_⟩
    · rintro rfl
      rw [jsTotalPages_eq_spec 0 pageSize hp, hzero]
    · rw [jsTotalPages_eq_spec t pageSize hp]
      exact le_max_left _ _
  refine ⟨?_, ?_, ?_⟩
  · intro r hr
    unfold productsPagedQueryFn at hr
    injection hr with hr
    subst hr
    exact key (count.getD 0)
  · intro r hr
    unfold adminProductsQueryFn at hr
    dsimp only at hr
    rw [List.mapM] at hr
    cases hmap : List.mapM.loop mapAdminProductRow rows [] with
    | error e =>
      rw [hmap] at hr
      simp at hr
    | ok items =>
      rw [hmap] at hr
      dsimp only at hr
      injection hr with hr
      subst hr
      exact key (count.getD 0)
  · intro r hfetch hr
    unfold productsByCategoryPagedQueryFn at hr
    cases hse : slug.isEmpty with
    | true =>
      simp only [hse, if_pos] at hr
      injection hr with hr
      subst hr
      exact ⟨hzero.symm, fun _ => rfl, le_refl _⟩
    | false =>
      simp only [hse, Bool.false_eq_true, if_false, hfetch] at hr
      injection hr with hr
      subst hr
      exact key (count.getD 0)

/-- C1 witness: 25 rows at page size 20 give two pages, and the page count
is positive. -/
theorem pagedQueries_totalPages_witness :
    ({ items := [], total := 25, page := 1, pageSize := 20,
       totalPages := 2 } : PagedResult Product).totalPages =
      specTotalPages 25 20 ∧
    (1 : ℤ) ≤ ({ items := [], total := 25, page := 1, pageSize := 20,
                 totalPages := 2 } : PagedResult Product).totalPages := by
  have hceil : ⌈(25 : ℚ) / 20⌉ = 2 := by
    rw [Int.ceil_eq_iff]
    norm_num
  have heq : productsPagedQueryFn 1 20 (.ok ([], some 25)) =
      .ok { items := [], total := 25, page := 1, pageSize := 20,
            totalPages := 2 } := by
    simp [productsPagedQueryFn, jsTotalPages, mapProductRows, hceil]
  have h := (pagedQueries_totalPages 1 20 (by norm_num) [] (some 25) "c" 1
      (fun _ => .ok ([], some 25))).1
    { items := [], total := 25, page := 1, pageSize := 20, totalPages := 2 } heq
  exact ⟨h.1, h.2.2⟩

/-- C5 counterexample: the storefront `mapProductRows` does not follow the
stated coercion contract at a concrete row. For `id = "abc"` the contract's
`toFiniteNumber` throws, yet the mapping succeeds and stores a NaN id; and
for an absent image the mapped `image` is the placeholder
`/images/ceramics.jpg`, not `null`. -/
theorem mapProductRows_contract_counterexample :
    toFiniteNumber (JsVal.jstr "abc") = .error "Invalid numeric value" ∧
    mapProductRows
        [{ id := JsVal.jstr "abc", name := "x", price := JsVal.jnull,
           image := none, category_id := JsVal.jnull,
           in_stock := JsVal.jnull }] =
      [{ id := JsNumber.nan, name := "x", price := none,
         image := "/images/ceramics.jpg", categoryId := none,
         inStock := JsVal.jbool true }] :=
  ⟨rfl, by decide⟩

/-- C5 (amended): the coercion contract holds in the admin mapping layer —
`toNullableFiniteNumber` yields null exactly on `null`, `undefined`, or a
value whose `Number(...)` coercion is not finite; `toFiniteNumber` returns
the coerced value exactly when finite and otherwise throws
`Invalid numeric value`; the admin row mapping feeds the required `id`
through `toFiniteNumber` (propagating the throw), the optional numerics
through `toNullableFiniteNumber`, `in_stock` through truthiness, and
`image` through `?? null`. The storefront `mapProductRows` instead coerces
`id` with an unchecked `Number`, renders `price` with `formatPrice`,
defaults an absent image to the placeholder image, and defaults `in_stock`
to `true` by nullish coalescing. -/
theorem mapping_coercion_contract :
    (∀ v : JsVal, toNullableFiniteNumber v = none ↔
      (v = .jnull ∨ v = .jundef ∨ (jsToNumber v).isFinite = false)) ∧
    (∀ (v : JsVal) (q : ℚ), toFiniteNumber v = .ok q ↔ jsToNumber v = .fin q) ∧
    (∀ v : JsVal, toFiniteNumber v = .error "Invalid numeric value" ↔
      (jsToNumber v).isFinite = false) ∧
    (∀ (row : RawProductRow) (q : ℚ), toFiniteNumber row.id = .ok q →
      mapAdminProductRow row = .ok
        { id := q, name := row.name,
          category_id := toNullableFiniteNumber row.category_id,
          in_stock := jsTruthy row.in_stock,
          price := toNullableFiniteNumber row.price, image := row.image }) ∧
    (∀ (row : RawProductRow) (e : String), toFiniteNumber row.id = .error e →
      mapAdminProductRow row = .error e) ∧
    (∀ row : RawProductRow, (mapProductRow row).id = jsToNumber row.id ∧
      (mapProductRow row).price = formatPrice row.price ∧
      (row.image = none → (mapProductRow row).image = "/images/ceramics.jpg") ∧
      ((row.in_stock = .jnull ∨ row.in_stock = .jundef) →
        (mapProductRow row).inStock = .jbool true)) := by
  refine ⟨?_, ?_, ?_, ?_, ?_, ?_⟩
  · intro v
    cases v <;>
      simp [toNullableFiniteNumber, jsToNumber, JsNumber.isFinite]
    case jstr s => cases hs : strToNumber s <;> simp [JsNumber.isFinite]
  · intro v q
    cases v <;> simp [toFiniteNumber, jsToNumber]
    case jstr s => cases hs : strToNumber s <;> simp
  · intro v
    cases v <;> simp [toFiniteNumber, jsToNumber, JsNumber.isFinite]
    case jstr s => cases hs : strToNumber s <;> simp [JsNumber.isFinite]
  · intro row q h
    unfold mapAdminProductRow
    rw [h]
  · intro row e h
    unfold mapAdminProductRow
    rw [h]
  · intro row
    refine ⟨rfl, rfl, ?_, ?_⟩
    · intro h
      simp [mapProductRow, h]
    · intro h
      rcases h with h | h <;> simp [mapProductRow, h]

/-- C5 witness: the amended admin-mapping contract applied at a concrete
row with a numeric id and absent optional fields. -/
theorem mapping_coercion_contract_witness :
    mapAdminProductRow
        { id := JsVal.jnum 7, name := "n", price := JsVal.jnull,
          image := none, category_id := JsVal.jnull,
          in_stock := JsVal.jbool true } =
      .ok { id := 7, name := "n", category_id := none, in_stock := true,
            price := none, image := none } := by
  rw [mapping_coercion_contract.2.2.2.1
    { id := JsVal.jnum 7, name := "n", price := JsVal.jnull,
      image := none, category_id := JsVal.jnull,
      in_stock := JsVal.jbool true } 7 rfl]
  simp only [Except.ok.injEq]
  decide

/-- every rendered digit character is a decimal digit. -/
theorem digitChar_digit : ∀ m : ℕ, m < 10 → isDigitChar (Char.ofNat (48 + m)) = true := by
  decide

/-- accumulator lemma: `natDigitsGo` only prepends digit characters. -/
theorem natDigitsGo_all : ∀ (fuel n : ℕ) (acc : List Char),
    (∀ c ∈ acc, isDigitChar c = true) →
    ∀ c ∈ natDigitsGo fuel n acc, isDigitChar c = true := by
  intro fuel
  induction fuel with
  | zero => intro n acc h c hc; exact h c hc
  | succ fuel ih =>
    intro n acc h c hc
    rw [natDigitsGo] at hc
    by_cases hn : n = 0
    · rw [if_pos hn] at hc
      exact h c hc
    · rw [if_neg hn] at hc
      refine ih _ _ ?_ c hc
      intro d hd
      rcases List.mem_cons.mp hd with rfl | hd
      · exact digitChar_digit _ (Nat.mod_lt _ (by omega))
      · exact h d hd

/-- `natDigitsGo` never discards its accumulator. -/
theorem natDigitsGo_ne_nil : ∀ (fuel n : ℕ) (acc : List Char),
    acc ≠ [] → natDigitsGo fuel n acc ≠ [] := by
  intro fuel
  induction fuel with
  | zero => intro n acc h; exact h
  | succ fuel ih =>
    intro n acc h
    rw [natDigitsGo]
    by_cases hn : n = 0
    · rw [if_pos hn]; exact h
    · rw [if_neg hn]
      exact ih _ _ (by simp)

/-- the decimal rendering of a natural number consists of digits. -/
theorem natDigits_all (n : ℕ) : ∀ c ∈ natDigits n, isDigitChar c = true := by
  unfold natDigits
  split
  · intro c hc
    simp at hc
    subst hc
    decide
  · exact natDigitsGo_all n n [] (by simp)

/-- the decimal rendering of a natural number is nonempty. -/
theorem natDigits_ne_nil (n : ℕ) : natDigits n ≠ [] := by
  unfold natDigits
  split
  · simp
  · rename_i hn
    cases n with
    | zero => simp_all
    | succ m =>
      rw [natDigitsGo]
      rw [if_neg hn]
      exact natDigitsGo_ne_nil _ _ _ (by simp)

/-- the sanitized extension is nonempty and drawn from `[a-z0-9]`. -/
theorem extOf_spec (name : List Char) :
    extOf name ≠ [] ∧ ∀ c ∈ extOf name, isLowerAlphaNum c = true := by
  simp only [extOf]
  split
  case isTrue h =>
    constructor
    · intro hnil
      rw [hnil] at h
      simp at h
    · intro c hc
      have := (Bool.and_eq_true _ _).mp h
      exact List.all_eq_true.mp this.2 c hc
  case isFalse h => exact ⟨by simp, by decide⟩

/-- a successful `indexOf` scan finds the first occurrence: when no
occurrence of a nonempty pattern starts strictly inside the prefix `pre`,
the scan over `pre ++ pat ++ rest` stops exactly at `pre.length`. -/
theorem firstMatchIdx_append (pat : List Char) (hpat : pat ≠ []) :
    ∀ (pre rest : List Char),
    (∀ i < pre.length, pat.isPrefixOf ((pre ++ pat ++ rest).drop i) = false) →
    firstMatchIdx pat (pre ++ pat ++ rest) = some pre.length := by
  intro pre
  induction pre with
  | nil =>
    intro rest _
    obtain ⟨c, cs, rfl⟩ : ∃ c cs, pat = c :: cs := by
      cases pat with
      | nil => exact absurd rfl hpat
      | cons a as => exact ⟨a, as, rfl⟩
    simp only [List.nil_append, List.cons_append]
    rw [firstMatchIdx]
    have hpre : (c :: cs).isPrefixOf (c :: (cs ++ rest)) = true := by
      rw [List.isPrefixOf_iff_prefix, ← List.cons_append]
      exact List.prefix_append _ _
    rw [if_pos hpre]
    rfl
  | cons b bs ih =>
    intro rest h
    rw [List.cons_append, List.cons_append]
    simp only [firstMatchIdx]
    have h0 : pat.isPrefixOf (b :: (bs ++ pat ++ rest)) = false := by
      have h00 := h 0 (by simp)
      simp only [List.drop_zero, List.cons_append] at h00
      exact h00
    rw [if_neg (by simp only [h0]; exact Bool.false_ne_true)]
    rw [ih rest ?_]
    · rfl
    · intro i hi
      have h1 := h (i + 1) (by simpa using Nat.succ_lt_succ hi)
      simp only [List.cons_append, List.drop_succ_cons] at h1
      exact h1

/-- a decode of a percent-free string is the identity. -/
theorem jsDecode_noop : ∀ (l : List Char), (∀ c ∈ l, c ≠ '%') →
    jsDecodeURIComponent l = l := by
  intro l
  induction l using jsDecodeURIComponent.induct with
  | case1 => intro _; rfl
  | case2 a b rest ha hb hha hhb ih =>
    intro h
    exact absurd rfl (h '%' (by simp))
  | case3 a b rest hcond ih =>
    intro h
    exact absurd rfl (h '%' (by simp))
  | case4 c cs hcond ih =>
    intro h
    have hc : c ≠ '%' := h c (by simp)
    have hstep : jsDecodeURIComponent (c :: cs) = c :: jsDecodeURIComponent cs := by
      rw [jsDecodeURIComponent.eq_def]
      split
      · rename_i heq
        exact absurd heq (by simp)
      · rename_i a b rest heq
        injection heq with h1 h2
        exact absurd h1 hc
      · rename_i c2 cs2 hne heq
        injection heq with h1 h2
        rw [h1, h2]
    rw [hstep, ih (fun d hd => h d (by simp [hd]))]

/-- a found index certifies that the pattern occurs in the string. -/
theorem firstMatchIdx_isInfix (pat : List Char) :
    ∀ (url : List Char) (i : ℕ), firstMatchIdx pat url = some i →
    List.IsInfix pat url := by
  intro url
  induction url with
  | nil =>
    intro i h
    simp only [firstMatchIdx] at h
    by_cases hp : pat.isEmpty
    · rw [List.isEmpty_iff] at hp
      subst hp
      exact List.nil_infix
    · rw [if_neg (by simp [hp])] at h
      exact absurd h (by simp)
  | cons c cs ih =>
    intro i h
    simp only [firstMatchIdx] at h
    by_cases hp : pat.isPrefixOf (c :: cs) = true
    · exact (List.isPrefixOf_iff_prefix.mp hp).isInfix
    · rw [if_neg (by simp [hp])] at h
      cases hrec : firstMatchIdx pat cs with
      | none => rw [hrec] at h; exact absurd h (by simp)
      | some j =>
        have := ih j hrec
        exact this.trans (List.suffix_cons c cs).isInfix

/-- C9: every key produced by `uploadProductImage` is
`timestamp ++ "-" ++ uniqueSuffix ++ "." ++ ext` with a nonempty extension
drawn from `[a-z0-9]` (defaulting to `bin`); reversing the public URL built
from such a key recovers exactly the key; and a URL that does not contain
the product-images public-object marker yields `null`. The unique suffix is
assumed percent-free (both generators emit only hex digits and hyphens) and
no marker occurrence may start inside the URL's origin part. -/
theorem storageKey_roundTrip (now : ℕ) (uniqueId name base : List Char)
    (huid : ∀ c ∈ uniqueId, c ≠ '%')
    (hbase : ∀ i < base.length,
      storageMarker.isPrefixOf
        ((base ++ storageMarker ++ uploadProductImagePath now uniqueId name).drop i)
        = false) :
    (extOf name ≠ [] ∧ (∀ c ∈ extOf name, isLowerAlphaNum c = true) ∧
     uploadProductImagePath now uniqueId name =
       natDigits now ++ '-' :: (uniqueId ++ '.' :: extOf name)) ∧
    getStoragePathFromPublicUrl
        (mkPublicUrl base (uploadProductImagePath now uniqueId name)) =
      some (uploadProductImagePath now uniqueId name) ∧
    (∀ url, ¬ List.IsInfix storageMarker url →
      getStoragePathFromPublicUrl url = none) := by
  set key := uploadProductImagePath now uniqueId name with hkey
  have hkeyne : key ≠ [] := by
    rw [hkey]
    unfold uploadProductImagePath
    intro hc
    exact natDigits_ne_nil now (List.append_eq_nil.mp hc).1
  have hkeypct : ∀ c ∈ key, c ≠ '%' := by
    rw [hkey]
    unfold uploadProductImagePath
    intro c hc
    simp only [List.mem_append, List.mem_cons] at hc
    rcases hc with hd | hc
    · have hdg := natDigits_all now c hd
      intro he
      subst he
      simp [isDigitChar] at hdg
    · rcases hc with rfl | hc
      · decide
      · rcases hc with hu | hc
        · exact huid c hu
        · rcases hc with rfl | hc
          · decide
          · have hax := (extOf_spec name).2 c hc
            intro he
            subst he
            simp [isLowerAlphaNum, isLowerAlpha, isDigitChar] at hax
  refine ⟨⟨(extOf_spec name).1, (extOf_spec name).2, rfl⟩, ?_, ?_⟩
  · unfold getStoragePathFromPublicUrl mkPublicUrl
    have hnenil : base ++ storageMarker ++ key ≠ [] := by
      intro hc
      exact hkeyne (List.append_eq_nil.mp hc).2
    have hcond : (base ++ storageMarker ++ key).isEmpty = false := by
      rw [Bool.eq_false_iff]
      intro hc
      exact hnenil (List.isEmpty_iff.mp hc)
    rw [if_neg (by simp only [hcond]; exact Bool.false_ne_true)]
    rw [firstMatchIdx_append storageMarker (by decide) base key hbase]
    have hdrop : (base ++ storageMarker ++ key).drop
        (base.length + storageMarker.length) = key := by
      rw [← List.drop_drop, List.append_assoc, List.drop_left, List.drop_left]
    simp only [hdrop]
    rw [if_neg (by simp [List.isEmpty_iff, hkeyne])]
    rw [jsDecode_noop key hkeypct]
  · intro url hinf
    unfold getStoragePathFromPublicUrl
    by_cases hu : url.isEmpty = true
    · rw [if_pos hu]
    · rw [if_neg hu]
      cases hfm : firstMatchIdx storageMarker url with
      | none => rfl
      | some i => exact absurd (firstMatchIdx_isInfix storageMarker url i hfm) hinf

/-- C9 witness at a concrete timestamp, suffix, file name and project
origin: the produced key is `17-ab-3f.png` and the public URL reverses to
exactly that key. -/
theorem storageKey_roundTrip_witness :
    uploadProductImagePath 17 "ab-3f".toList "photo.PNG".toList =
      "17-ab-3f.png".toList ∧
    getStoragePathFromPublicUrl
        (mkPublicUrl "https://proj.supabase.co".toList
          (uploadProductImagePath 17 "ab-3f".toList "photo.PNG".toList)) =
      some (uploadProductImagePath 17 "ab-3f".toList "photo.PNG".toList) :=
  ⟨by decide,
   (storageKey_roundTrip 17 "ab-3f".toList "photo.PNG".toList
      "https://proj.supabase.co".toList (by decide) (by decide)).2.1⟩

/-- characters with different codepoints differ. -/
theorem ne_of_toNat_ne {c d : Char} (h : c.toNat ≠ d.toNat) : c ≠ d :=
  fun he => h (he ▸ rfl)

/-- case analysis on a slug character. -/
theorem slugChar_cases {c : Char} (h : isSlugChar c = true) :
    (97 ≤ c.toNat ∧ c.toNat ≤ 122) ∨ (48 ≤ c.toNat ∧ c.toNat ≤ 57) ∨ c = '-' := by
  simp only [isSlugChar, isLowerAlpha, isDigitChar, Bool.or_eq_true,
    Bool.and_eq_true, decide_eq_true_eq, beq_iff_eq] at h
  tauto

/-- codepoint form of the slug-character case analysis. -/
theorem slugChar_toNat {c : Char} (h : isSlugChar c = true) :
    (97 ≤ c.toNat ∧ c.toNat ≤ 122) ∨ (48 ≤ c.toNat ∧ c.toNat ≤ 57) ∨
      c.toNat = 45 := by
  rcases slugChar_cases h with h1 | h1 | rfl
  · exact Or.inl h1
  · exact Or.inr (Or.inl h1)
  · exact Or.inr (Or.inr (by decide))

/-- slug characters are not whitespace. -/
theorem slugChar_not_ws {c : Char} (h : isSlugChar c = true) :
    isWsChar c = false := by
  have ht := slugChar_toNat h
  simp only [isWsChar, Bool.or_eq_false_iff, decide_eq_false_iff_not]
  rcases ht with ⟨a, b⟩ | ⟨a, b⟩ | a <;> omega

/-- slug characters are not quotes. -/
theorem slugChar_not_quote {c : Char} (h : isSlugChar c = true) :
    isQuoteChar c = false := by
  have ht := slugChar_toNat h
  simp only [isQuoteChar, Bool.or_eq_false_iff, beq_eq_false_iff_ne]
  have h1 : Char.toNat '\'' = 39 := by decide
  have h2 : Char.toNat '"' = 34 := by decide
  refine ⟨ne_of_toNat_ne ?_, ne_of_toNat_ne ?_⟩ <;>
    · first
      | (rw [h1]; rcases ht with ⟨a, b⟩ | ⟨a, b⟩ | a <;> omega)
      | (rw [h2]; rcases ht with ⟨a, b⟩ | ⟨a, b⟩ | a <;> omega)

/-- slug characters survive the allowed-character filter. -/
theorem slugChar_allowed {c : Char} (h : isSlugChar c = true) :
    isAllowedChar c = true := by
  simp only [isAllowedChar, Bool.or_eq_true]
  simp only [isSlugChar, Bool.or_eq_true] at h
  tauto

/-- an allowed, non-whitespace character is a slug character. -/
theorem allowed_not_ws_slug {c : Char} (h1 : isAllowedChar c = true)
    (h2 : isWsChar c = false) : isSlugChar c = true := by
  simp only [isAllowedChar, Bool.or_eq_true] at h1
  simp only [isSlugChar, Bool.or_eq_true]
  rcases h1 with ((h | h) | h) | h
  · tauto
  · tauto
  · rw [h2] at h
    exact absurd h (by simp)
  · tauto

/-- lowercasing fixes slug characters. -/
theorem jsToLower_slug {c : Char} (h : isSlugChar c = true) :
    jsToLower c = c := by
  have ht := slugChar_toNat h
  simp only [jsToLower]
  split_ifs with h1 h2 h3
  · simp only [Bool.and_eq_true, decide_eq_true_eq] at h1
    exact absurd h1 (by rcases ht with ⟨a, b⟩ | ⟨a, b⟩ | a <;> omega)
  · simp only [Bool.and_eq_true, decide_eq_true_eq] at h2
    exact absurd h2 (by rcases ht with ⟨a, b⟩ | ⟨a, b⟩ | a <;> omega)
  · exact absurd h3 (by rcases ht with ⟨a, b⟩ | ⟨a, b⟩ | a <;> omega)
  · rfl

/-- association-list lookup misses every key with a large codepoint. -/
theorem lookup_none_big {c : Char} (hc : c.toNat < 1024) :
    ∀ (ps : List (Char × List Char)), (∀ p ∈ ps, 1024 ≤ p.1.toNat) →
      ps.lookup c = none := by
  intro ps
  induction ps with
  | nil => intro _; rfl
  | cons kv rest ih =>
    intro h
    obtain ⟨k, v⟩ := kv
    have hk : 1024 ≤ k.toNat := h (k, v) (by simp)
    have hne : (c == k) = false :=
      beq_eq_false_iff_ne.mpr (ne_of_toNat_ne (by omega))
    simp only [List.lookup, hne]
    exact ih (fun p hp => h p (by simp [hp]))

/-- transliteration fixes slug characters. -/
theorem translitChar_slug {c : Char} (h : isSlugChar c = true) :
    translitChar c = [c] := by
  have ht := slugChar_toNat h
  have hc : c.toNat < 1024 := by
    rcases ht with ⟨a, b⟩ | ⟨a, b⟩ | a <;> omega
  unfold translitChar
  rw [lookup_none_big hc translitPairs (by decide)]

/-- `dropWhile` is the identity when no element satisfies the predicate. -/
theorem dropWhile_all_false {p : Char → Bool} {l : List Char}
    (h : ∀ c ∈ l, p c = false) : l.dropWhile p = l := by
  cases l with
  | nil => rfl
  | cons a as =>
    rw [List.dropWhile_cons, if_neg (by simp [h a (by simp)])]

/-- trimming is the identity on whitespace-free lists. -/
theorem trimWs_id {l : List Char} (h : ∀ c ∈ l, isWsChar c = false) :
    trimWsList l = l := by
  unfold trimWsList
  rw [dropWhile_all_false h,
    dropWhile_all_false (fun c hc => h c (List.mem_reverse.mp hc)),
    List.reverse_reverse]

/-- pointwise-fixed maps are the identity. -/
theorem map_id_of {f : Char → Char} {l : List Char} (h : ∀ c ∈ l, f c = c) :
    l.map f = l := by
  induction l with
  | nil => rfl
  | cons a as ih =>
    simp only [List.map_cons, h a (by simp),
      ih (fun c hc => h c (by simp [hc]))]

/-- flattening singleton lists is the identity. -/
theorem flatten_singletons : ∀ l : List Char,
    (l.map (fun c => [c])).flatten = l := by
  intro l
  induction l with
  | nil => rfl
  | cons a as ih => simp [ih]

/-- run collapsing is the identity when no character matches. -/
theorem collapseRunsGo_nop {p : Char → Bool} {r : Char} : ∀ {l : List Char},
    (∀ c ∈ l, p c = false) → collapseRunsGo p r false l = l := by
  intro l
  induction l with
  | nil => intro _; rfl
  | cons a as ih =>
    intro h
    rw [collapseRunsGo, if_neg (by simp [h a (by simp)])]
    rw [ih (fun c hc => h c (by simp [hc]))]

/-- tails of hyphen-run-free lists are hyphen-run-free. -/
theorem noHyphenRunB_tail {a : Char} {l : List Char}
    (h : noHyphenRunB (a :: l) = true) : noHyphenRunB l = true := by
  cases l with
  | nil => rfl
  | cons b bs =>
    simp only [noHyphenRunB, Bool.and_eq_true] at h
    exact h.2

/-- prepending a non-hyphen preserves hyphen-run-freeness. -/
theorem noHyphenRunB_cons_of {a : Char} {l : List Char}
    (ha : (a == '-') = false) (h : noHyphenRunB l = true) :
    noHyphenRunB (a :: l) = true := by
  cases l with
  | nil => rfl
  | cons b bs =>
    simp only [noHyphenRunB, Bool.and_eq_true]
    exact ⟨by simp [ha], h⟩

/-- hyphen-run collapsing is the identity on hyphen-run-free lists (in the
not-in-run state; in the in-run state it is the identity whenever the list
does not begin with a hyphen). -/
theorem collapseRunsGo_hyphen_id :
    ∀ l : List Char, noHyphenRunB l = true →
      (collapseRunsGo (fun c => c == '-') '-' false l = l ∧
       (l.head? ≠ some '-' → collapseRunsGo (fun c => c == '-') '-' true l = l)) := by
  intro l
  induction l with
  | nil => intro _; exact ⟨rfl, fun _ => rfl⟩
  | cons a as ih =>
    intro h
    have htail : noHyphenRunB as = true := noHyphenRunB_tail h
    by_cases ha : a = '-'
    · subst ha
      have hhead : as.head? ≠ some '-' := by
        cases as with
        | nil => simp
        | cons b bs =>
          simp only [noHyphenRunB, Bool.and_eq_true, Bool.not_eq_eq_eq_not,
            Bool.not_true, Bool.and_eq_false_iff, beq_eq_false_iff_ne] at h
          rcases h.1 with hb | hb
          · exact absurd rfl hb
          · simp [hb]
      constructor
      · rw [collapseRunsGo, if_pos (by decide), if_neg (by simp)]
        rw [(ih htail).2 hhead]
      · intro hh
        exact absurd (rfl : (('-' :: as).head? = some '-')) hh
    · have hpa : ((a == '-') : Bool) = false := beq_eq_false_iff_ne.mpr ha
      constructor
      · rw [collapseRunsGo, if_neg (by simp [hpa])]
        rw [(ih htail).1]
      · intro _
        rw [collapseRunsGo, if_neg (by simp [hpa])]
        rw [(ih htail).1]

/-- characters surviving run collapsing are the replacement or non-matching
input characters. -/
theorem collapseRunsGo_mem {p : Char → Bool} {r : Char} :
    ∀ (l : List Char) (flag : Bool) (c : Char),
      c ∈ collapseRunsGo p r flag l → c = r ∨ (c ∈ l ∧ p c = false) := by
  intro l
  induction l with
  | nil =>
    intro flag c hc
    rw [collapseRunsGo] at hc
    simp at hc
  | cons a as ih =>
    intro flag c hc
    rw [collapseRunsGo] at hc
    cases hpa : p a with
    | true =>
      rw [if_pos hpa] at hc
      cases flag with
      | true =>
        rw [if_pos rfl] at hc
        rcases ih true c hc with rfl | ⟨hm, hp⟩
        · exact Or.inl rfl
        · exact Or.inr ⟨by simp [hm], hp⟩
      | false =>
        rw [if_neg (by simp)] at hc
        rcases List.mem_cons.mp hc with rfl | hc2
        · exact Or.inl rfl
        · rcases ih true c hc2 with rfl | ⟨hm, hp⟩
          · exact Or.inl rfl
          · exact Or.inr ⟨by simp [hm], hp⟩
    | false =>
      rw [if_neg (by simp [hpa])] at hc
      rcases List.mem_cons.mp hc with rfl | hc2
      · exact Or.inr ⟨by simp, hpa⟩
      · rcases ih false c hc2 with rfl | ⟨hm, hp⟩
        · exact Or.inl rfl
        · exact Or.inr ⟨by simp [hm], hp⟩

/-- hyphen-run collapsing emits no two adjacent hyphens (and, in the
in-run state, not even after a pending hyphen). -/
theorem collapseRunsGo_hyphen_noRun :
    ∀ l : List Char,
      noHyphenRunB (collapseRunsGo (fun c => c == '-') '-' false l) = true ∧
      noHyphenRunB ('-' :: collapseRunsGo (fun c => c == '-') '-' true l) = true := by
  intro l
  induction l with
  | nil => exact ⟨rfl, rfl⟩
  | cons a as ih =>
    obtain ⟨ih1, ih2⟩ := ih
    cases hpa : ((a == '-') : Bool) with
    | true =>
      constructor
      · rw [collapseRunsGo, if_pos hpa, if_neg (by simp)]
        exact ih2
      · rw [collapseRunsGo, if_pos hpa, if_pos rfl]
        exact ih2
    | false =>
      constructor
      · rw [collapseRunsGo, if_neg (by simp [hpa])]
        exact noHyphenRunB_cons_of hpa ih1
      · rw [collapseRunsGo, if_neg (by simp [hpa])]
        simp only [noHyphenRunB, Bool.and_eq_true]
        exact ⟨by simp [hpa], noHyphenRunB_cons_of hpa ih1⟩

/-- unfolding equation for `dropLeadHyphen` on a nonempty list. -/
theorem dropLeadHyphen_cons (a : Char) (as : List Char) :
    dropLeadHyphen (a :: as) = if a = '-' then as else a :: as := rfl

/-- dropping one leading hyphen keeps membership. -/
theorem dropLeadHyphen_mem {c : Char} {l : List Char}
    (h : c ∈ dropLeadHyphen l) : c ∈ l := by
  cases l with
  | nil => exact h
  | cons a as =>
    rw [dropLeadHyphen_cons] at h
    split at h
    · exact List.mem_cons_of_mem a h
    · exact h

/-- dropping one leading hyphen preserves hyphen-run-freeness. -/
theorem dropLeadHyphen_noRun {l : List Char} (h : noHyphenRunB l = true) :
    noHyphenRunB (dropLeadHyphen l) = true := by
  cases l with
  | nil => exact h
  | cons a as =>
    rw [dropLeadHyphen_cons]
    split
    · exact noHyphenRunB_tail h
    · exact h

/-- after dropping one leading hyphen from a hyphen-run-free list, the head
is not a hyphen. -/
theorem dropLeadHyphen_head {l : List Char} (h : noHyphenRunB l = true) :
    (dropLeadHyphen l).head? ≠ some '-' := by
  cases l with
  | nil => simp [dropLeadHyphen]
  | cons a as =>
    by_cases ha : a = '-'
    · subst ha
      rw [dropLeadHyphen_cons, if_pos rfl]
      cases as with
      | nil => simp
      | cons b bs =>
        simp only [noHyphenRunB, Bool.and_eq_true] at h
        have hb : b ≠ '-' := by simpa using h.1
        simp only [List.head?_cons, ne_eq, Option.some.injEq]
        exact hb
    · rw [dropLeadHyphen_cons, if_neg ha]
      simp [ha]

/-- removing the last element preserves hyphen-run-freeness. -/
theorem dropLast_noRun : ∀ {l : List Char}, noHyphenRunB l = true →
    noHyphenRunB l.dropLast = true := by
  intro l
  induction l with
  | nil => intro h; exact h
  | cons a as ih =>
    intro h
    cases as with
    | nil => rfl
    | cons b bs =>
      rw [List.dropLast_cons₂]
      have h2 := ih (noHyphenRunB_tail h)
      cases bs with
      | nil => rfl
      | cons d ds =>
        rw [List.dropLast_cons₂] at h2 ⊢
        simp only [noHyphenRunB, Bool.and_eq_true] at h ⊢
        exact ⟨h.1, h2⟩

/-- in a hyphen-run-free list ending in a hyphen, the element before the
last is not a hyphen. -/
theorem dropLast_last_ne : ∀ {m : List Char}, noHyphenRunB m = true →
    m.getLast? = some '-' → m.dropLast.getLast? ≠ some '-' := by
  intro m
  induction m with
  | nil => intro _ h2; simp at h2
  | cons a ms ih =>
    intro h1 h2
    cases ms with
    | nil => simp [List.dropLast]
    | cons b bs =>
      rw [List.dropLast_cons₂]
      cases hbs : bs with
      | nil =>
        subst hbs
        have hb : b = '-' := by
          rw [List.getLast?_cons_cons] at h2
          simpa using h2
        simp only [noHyphenRunB, Bool.and_eq_true] at h1
        have ha : a ≠ '-' := by
          subst hb
          simpa using h1.1
        simp [List.dropLast, ha]
      | cons d ds =>
        subst hbs
        have hrec := ih (noHyphenRunB_tail h1)
          (by rwa [List.getLast?_cons_cons] at h2)
        rw [List.dropLast_cons₂] at hrec
        rw [List.dropLast_cons₂, List.getLast?_cons_cons]
        exact hrec

/-- dropping one trailing hyphen keeps membership. -/
theorem dropLastHyphen_mem {c : Char} {l : List Char}
    (h : c ∈ dropLastHyphen l) : c ∈ l := by
  unfold dropLastHyphen at h
  split at h
  · exact (List.dropLast_sublist l).subset h
  · exact h

/-- dropping one trailing hyphen preserves hyphen-run-freeness. -/
theorem dropLastHyphen_noRun {l : List Char} (h : noHyphenRunB l = true) :
    noHyphenRunB (dropLastHyphen l) = true := by
  unfold dropLastHyphen
  split
  · exact dropLast_noRun h
  · exact h

/-- dropping one trailing hyphen can only preserve the head. -/
theorem dropLastHyphen_head {m : List Char} {c : Char}
    (h : (dropLastHyphen m).head? = some c) : m.head? = some c := by
  unfold dropLastHyphen at h
  split at h
  · cases m with
    | nil => simp [List.dropLast] at h
    | cons a ms =>
      cases ms with
      | nil => simp [List.dropLast] at h
      | cons b bs =>
        rw [List.dropLast_cons₂] at h
        simpa using h
  · exact h

/-- after dropping one trailing hyphen from a hyphen-run-free list, the
last element is not a hyphen. -/
theorem dropLastHyphen_last {m : List Char} (h : noHyphenRunB m = true) :
    (dropLastHyphen m).getLast? ≠ some '-' := by
  unfold dropLastHyphen
  split
  case isTrue hlast => exact dropLast_last_ne h hlast
  case isFalse hlast => exact hlast

/-- identity of the leading-hyphen drop when the head is not a hyphen. -/
theorem dropLeadHyphen_id {l : List Char} (h : l.head? ≠ some '-') :
    dropLeadHyphen l = l := by
  cases l with
  | nil => rfl
  | cons a as =>
    rw [dropLeadHyphen_cons, if_neg]
    intro ha
    subst ha
    exact h rfl

/-- identity of the trailing-hyphen drop when the last is not a hyphen. -/
theorem dropLastHyphen_id {l : List Char} (h : l.getLast? ≠ some '-') :
    dropLastHyphen l = l := by
  unfold dropLastHyphen
  rw [if_neg h]

/-- edge trimming keeps membership. -/
theorem trimEdge_mem {c : Char} {l : List Char}
    (hc : c ∈ trimEdgeHyphens l) : c ∈ l := by
  unfold trimEdgeHyphens at hc
  exact dropLeadHyphen_mem (dropLastHyphen_mem hc)

/-- edge trimming preserves hyphen-run-freeness. -/
theorem trimEdge_noRun {l : List Char} (h : noHyphenRunB l = true) :
    noHyphenRunB (trimEdgeHyphens l) = true := by
  unfold trimEdgeHyphens
  exact dropLastHyphen_noRun (dropLeadHyphen_noRun h)

/-- the head of a trimmed hyphen-run-free list is not a hyphen. -/
theorem trimEdge_head {l : List Char} (h : noHyphenRunB l = true) :
    (trimEdgeHyphens l).head? ≠ some '-' := by
  unfold trimEdgeHyphens
  intro hc
  exact dropLeadHyphen_head h (dropLastHyphen_head hc)

/-- the last element of a trimmed hyphen-run-free list is not a hyphen. -/
theorem trimEdge_last {l : List Char} (h : noHyphenRunB l = true) :
    (trimEdgeHyphens l).getLast? ≠ some '-' := by
  unfold trimEdgeHyphens
  exact dropLastHyphen_last (dropLeadHyphen_noRun h)

/-- edge trimming fixes lists with no edge hyphens. -/
theorem trimEdge_id {l : List Char} (h1 : l.head? ≠ some '-')
    (h2 : l.getLast? ≠ some '-') : trimEdgeHyphens l = l := by
  unfold trimEdgeHyphens
  rw [dropLeadHyphen_id h1, dropLastHyphen_id h2]

/-- invariants of the normalization pipeline, for every input: the output
consists of slug characters, has no hyphen runs, and has no edge hyphens. -/
theorem slugifyBase_invariants (x : List Char) :
    (∀ c ∈ slugifyBase x, isSlugChar c = true) ∧
    noHyphenRunB (slugifyBase x) = true ∧
    (slugifyBase x).head? ≠ some '-' ∧
    (slugifyBase x).getLast? ≠ some '-' := by
  simp only [slugifyBase, collapseRuns]
  set kept := ((((trimWsList x).map jsToLower).map translitChar).flatten.filter
    (fun c => !isQuoteChar c)).filter isAllowedChar with hkept
  set wsC := collapseRunsGo isWsChar '-' false kept with hws
  have hmemws : ∀ c ∈ wsC, isSlugChar c = true := by
    intro c hc
    rcases collapseRunsGo_mem kept false c hc with rfl | ⟨hm, hp⟩
    · decide
    · exact allowed_not_ws_slug (List.mem_filter.mp hm).2 hp
  have hmemhy : ∀ c ∈ collapseRunsGo (fun c => c == '-') '-' false wsC,
      isSlugChar c = true := by
    intro c hc
    rcases collapseRunsGo_mem wsC false c hc with rfl | ⟨hm, _⟩
    · decide
    · exact hmemws c hm
  have hrun := (collapseRunsGo_hyphen_noRun wsC).1
  refine ⟨?_, trimEdge_noRun hrun, trimEdge_head hrun, trimEdge_last hrun⟩
  intro c hc
  exact hmemhy c (trimEdge_mem hc)

/-- the normalization pipeline fixes every list that already satisfies its
output invariants and has no edge hyphens. -/
theorem slugifyBase_fix {l : List Char}
    (hmem : ∀ c ∈ l, isSlugChar c = true)
    (hrun : noHyphenRunB l = true)
    (hhead : l.head? ≠ some '-')
    (hlast : l.getLast? ≠ some '-') :
    slugifyBase l = l := by
  simp only [slugifyBase, collapseRuns]
  rw [trimWs_id (fun c hc => slugChar_not_ws (hmem c hc))]
  rw [map_id_of (fun c hc => jsToLower_slug (hmem c hc))]
  rw [List.map_congr_left (fun c hc => translitChar_slug (hmem c hc))]
  rw [flatten_singletons]
  rw [show List.filter (fun c => !isQuoteChar c) l = l from
    List.filter_eq_self.mpr (fun c hc => by simp [slugChar_not_quote (hmem c hc)])]
  rw [show List.filter isAllowedChar l = l from
    List.filter_eq_self.mpr (fun c hc => slugChar_allowed (hmem c hc))]
  rw [collapseRunsGo_nop (fun c hc => slugChar_not_ws (hmem c hc))]
  rw [(collapseRunsGo_hyphen_id l hrun).1]
  exact trimEdge_id hhead hlast

/-- hyphen-run-freeness of an append, given both halves and the junction. -/
theorem noHyphenRunB_append {l₂ : List Char} : ∀ {l₁ : List Char},
    noHyphenRunB l₁ = true → noHyphenRunB l₂ = true →
    (∀ a b, l₁.getLast? = some a → l₂.head? = some b →
      (a == '-' && b == '-') = false) →
    noHyphenRunB (l₁ ++ l₂) = true := by
  intro l₁
  induction l₁ with
  | nil => intro _ h₂ _; simpa using h₂
  | cons a as ih =>
    intro h₁ h₂ hj
    cases as with
    | nil =>
      cases l₂ with
      | nil => simpa using h₁
      | cons b bs =>
        simp only [List.cons_append, List.nil_append, noHyphenRunB,
          Bool.and_eq_true]
        refine ⟨?_, h₂⟩
        have := hj a b (by simp) (by simp)
        simp [this]
    | cons a2 as2 =>
      have hpair : (a == '-' && a2 == '-') = false := by
        simp only [noHyphenRunB, Bool.and_eq_true] at h₁
        have hx := h₁.1
        simp only [Bool.and_eq_false_iff, beq_eq_false_iff_ne]
        simpa [or_iff_not_imp_left] using hx
      have htail := ih (noHyphenRunB_tail h₁) h₂
        (fun p q hp hq => hj p q (by rwa [List.getLast?_cons_cons]) hq)
      simp only [List.cons_append] at htail ⊢
      simp only [noHyphenRunB, Bool.and_eq_true]
      exact ⟨by simp [hpair], htail⟩

/-- hyphen-free lists are hyphen-run-free. -/
theorem noHyphenRunB_of_no_hyphen {l : List Char}
    (h : ∀ c ∈ l, (c == '-') = false) : noHyphenRunB l = true := by
  induction l with
  | nil => rfl
  | cons a as ih =>
    exact noHyphenRunB_cons_of (h a (by simp))
      (ih (fun c hc => h c (by simp [hc])))

/-- digits are not hyphens. -/
theorem digit_not_hyphen {c : Char} (h : isDigitChar c = true) :
    (c == '-') = false := by
  simp only [isDigitChar, Bool.and_eq_true, decide_eq_true_eq] at h
  refine beq_eq_false_iff_ne.mpr (ne_of_toNat_ne ?_)
  have h45 : Char.toNat '-' = 45 := by decide
  omega

/-- the fallback placeholder satisfies the slug output invariants. -/
theorem placeholder_invariants (now : ℕ) :
    (∀ c ∈ "category-".toList ++ natDigits now, isSlugChar c = true) ∧
    noHyphenRunB ("category-".toList ++ natDigits now) = true ∧
    ("category-".toList ++ natDigits now).head? ≠ some '-' ∧
    ("category-".toList ++ natDigits now).getLast? ≠ some '-' := by
  refine ⟨?_, ?_, ?_, ?_⟩
  · have hcat : ∀ c ∈ "category-".toList, isSlugChar c = true := by decide
    intro c hc
    rcases List.mem_append.mp hc with hm | hm
    · exact hcat c hm
    · have := natDigits_all now c hm
      simp [isSlugChar, this]
  · refine noHyphenRunB_append (by decide)
      (noHyphenRunB_of_no_hyphen
        (fun c hc => digit_not_hyphen (natDigits_all now c hc))) ?_
    intro a b ha hb
    have hlast : ("category-".toList).getLast? = some '-' := by decide
    rw [hlast] at ha
    injection ha with ha
    subst ha
    have hb2 := digit_not_hyphen
      (natDigits_all now b (List.mem_of_mem_head? (by simp [hb])))
    simp [hb2]
  · have hh : ("category-".toList ++ natDigits now).head? = some 'c' := rfl
    rw [hh]
    simp
  · rw [List.getLast?_append_of_ne_nil _ (natDigits_ne_nil now)]
    intro hc
    have hm := List.mem_of_mem_getLast? hc
    have hd := natDigits_all now '-' hm
    simp [isDigitChar] at hd

/-- a valid slug is fixed by the normalization pipeline and nonempty. -/
theorem validSlug_fix {x : List Char} (hv : isValidSlug x = true) :
    slugifyBase x = x ∧ x ≠ [] := by
  simp only [isValidSlug, Bool.and_eq_true] at hv
  obtain ⟨⟨⟨⟨h1, h2⟩, h3⟩, h4⟩, h5⟩ := hv
  have hne : x ≠ [] := by
    intro hc
    rw [hc] at h1
    simp at h1
  refine ⟨slugifyBase_fix (fun c hc => List.all_eq_true.mp h2 c hc) h3
    (bne_iff_ne.mp h4) (bne_iff_ne.mp h5), hne⟩

/-- evaluation of `slugify` on a fixed, nonempty input. -/
theorem slugify_of_fix {l : List Char} (m : ℕ) (hfix : slugifyBase l = l)
    (hne : l ≠ []) : slugify m l = l := by
  unfold slugify
  rw [hfix, if_neg (by simp [List.isEmpty_iff, hne])]

/-- C4: `slugify` is idempotent on every input; it is the identity on
already-valid slugs; its result is never empty and consists only of
lowercase latin letters, digits and hyphens; and when the normalization
pipeline yields the empty string it returns the time-based
`category-<timestamp>` placeholder instead. -/
theorem slugify_spec (now now2 : ℕ) (x : List Char) :
    slugify now2 (slugify now x) = slugify now x ∧
    (isValidSlug x = true → slugify now x = x) ∧
    slugify now x ≠ [] ∧
    (∀ c ∈ slugify now x, isSlugChar c = true) ∧
    (slugifyBase x = [] → slugify now x = "category-".toList ++ natDigits now) := by
  have hb := slugifyBase_invariants x
  by_cases hempty : slugifyBase x = []
  · have h1 : slugify now x = "category-".toList ++ natDigits now := by
      unfold slugify
      rw [if_pos (by simp [hempty])]
    have hp := placeholder_invariants now
    have hfix := slugifyBase_fix hp.1 hp.2.1 hp.2.2.1 hp.2.2.2
    have hne : "category-".toList ++ natDigits now ≠ [] := by simp
    refine ⟨?_, ?_, ?_, ?_, fun _ => h1⟩
    · rw [h1]
      exact slugify_of_fix now2 hfix hne
    · intro hv
      exfalso
      obtain ⟨hfx, hnex⟩ := validSlug_fix hv
      rw [hempty] at hfx
      exact hnex hfx.symm
    · rw [h1]
      exact hne
    · intro c hc
      rw [h1] at hc
      exact hp.1 c hc
  · have h1 : slugify now x = slugifyBase x := by
      unfold slugify
      rw [if_neg (by simp [List.isEmpty_iff, hempty])]
    refine ⟨?_, ?_, ?_, ?_, fun hh => absurd hh hempty⟩
    · rw [h1]
      exact slugify_of_fix now2
        (slugifyBase_fix hb.1 hb.2.1 hb.2.2.1 hb.2.2.2) hempty
    · intro hv
      obtain ⟨hfx, _⟩ := validSlug_fix hv
      rw [h1, hfx]
    · rw [h1]
      exact hempty
    · intro c hc
      rw [h1] at hc
      exact hb.1 c hc

/-- C4 witness: idempotence at a concrete Cyrillic name and identity at a
concrete already-valid slug. -/
theorem slugify_spec_witness :
    slugify 1 (slugify 0 "Тарелка!!".toList) = slugify 0 "Тарелка!!".toList ∧
    slugify 5 "plate-2".toList = "plate-2".toList :=
  ⟨(slugify_spec 0 1 "Тарелка!!".toList).1,
   (slugify_spec 5 9 "plate-2".toList).2.1 (by decide)⟩
